import Mathlib

/-!
Shallow embedding of the ddbot webhook service (src/main.rs) and proofs
about its event-handling logic.

The embedding models the pure decision core of `webhook_handler`:
privilege classification of a comment author, line-by-line command
parsing of a comment body, the label-reconciliation computations, the
file-path labeler for pull requests, and the tracker calls each branch
emits.  Rust string primitives (`str::strip_prefix`, `str::trim_start`,
`str::lines`, `str::split_ascii_whitespace`, `str::contains`) are
embedded as functions on `String` via its underlying character list.
`HashSet<String>` values are embedded as duplicate-free lists, with
`insert` appending a new element and `remove` filtering; this fixes the
set's iteration order (insertion order) where the Rust hash set leaves
it unspecified.
-/

namespace DDBot

/-- ASCII whitespace, as recognized by the Rust `str` trimming/splitting
primitives used in the handler (space, tab, newline, carriage return,
form feed). -/
def isWsChar (c : Char) : Bool :=
  decide (c = ' ' ∨ c = '\t' ∨ c = '\n' ∨ c = '\r' ∨ c = '\x0c')

/-- Boolean list-prefix test (mirrors `str::strip_prefix`'s match phase). -/
def isPrefB : List Char → List Char → Bool
  | [], _ => true
  | _ :: _, [] => false
  | a :: as, b :: bs => if a = b then isPrefB as bs else false

/-- Embedding of Rust `str::strip_prefix`: `some` of the remainder when
`p` is a prefix of `s`, otherwise `none`. -/
def stripPref (p s : String) : Option String :=
  match isPrefB p.data s.data with
  | true => some (String.mk (s.data.drop p.data.length))
  | false => none

/-- Drop leading whitespace from a character list. -/
def trimStartL : List Char → List Char
  | [] => []
  | c :: rest => if isWsChar c then trimStartL rest else c :: rest

/-- Embedding of Rust `str::trim_start`. -/
def trimStart (s : String) : String :=
  String.mk (trimStartL s.data)

/-- Worker for `splitWs`: accumulates the current word (reversed). -/
def splitWsAux : List Char → List Char → List String
  | [], acc => if acc.isEmpty then [] else [String.mk acc.reverse]
  | c :: rest, acc =>
    if isWsChar c then
      (if acc.isEmpty then [] else [String.mk acc.reverse]) ++ splitWsAux rest []
    else
      splitWsAux rest (c :: acc)

/-- Embedding of Rust `str::split_ascii_whitespace`. -/
def splitWs (s : String) : List String :=
  splitWsAux s.data []

/-- Split a character list at newline characters. -/
def splitLinesAux : List Char → List Char → List (List Char)
  | [], acc => [acc.reverse]
  | c :: rest, acc =>
    if c = '\n' then acc.reverse :: splitLinesAux rest []
    else splitLinesAux rest (c :: acc)

/-- Drop a final empty segment (Rust `str::lines` yields no line for a
trailing line terminator). -/
def dropLastEmpty : List (List Char) → List (List Char)
  | [] => []
  | [l] => if l.isEmpty then [] else [l]
  | l :: rest => l :: dropLastEmpty rest

/-- Strip one trailing carriage return (Rust `str::lines` splits at
`\n` or `\r\n`). -/
def stripCRend (l : List Char) : List Char :=
  match l.getLast? with
  | some '\r' => l.dropLast
  | _ => l

/-- Embedding of Rust `str::lines`. -/
def rlines (s : String) : List String :=
  (dropLastEmpty (splitLinesAux s.data [])).map (fun l => String.mk (stripCRend l))

/-- Unanchored substring test, pattern first (worker for `rcontains`). -/
def containsAux (pat : List Char) : List Char → Bool
  | [] => isPrefB pat []
  | c :: rest => isPrefB pat (c :: rest) || containsAux pat rest

/-- Embedding of Rust `str::contains` with a string pattern:
case-sensitive, unanchored substring match. -/
def rcontains (hay pat : String) : Bool :=
  containsAux pat.data hay.data

/-- Lexicographic (by character code) comparison of strings, used only to
state ordering properties of emitted label lists. -/
def lexLeL : List Char → List Char → Bool
  | [], _ => true
  | _ :: _, [] => false
  | a :: as, b :: bs => if a < b then true else if a = b then lexLeL as bs else false

/-- String form of `lexLeL`. -/
def lexLe (a b : String) : Bool :=
  lexLeL a.data b.data

/-- `HashSet<String>::insert`, on the insertion-order list embedding of a
hash set: appends the element when absent. -/
def hsInsert (s : List String) (x : String) : List String :=
  if x ∈ s then s else s ++ [x]

/-- `HashSet<String>::remove`, on the list embedding: filters the element
out. -/
def hsRemove (s : List String) (x : String) : List String :=
  s.filter (fun y => decide (y ≠ x))

/-- The author-association variants of the forge payload that the handler
distinguishes (`models::AuthorAssociation`); `Other` carries free text and
the Rust `match` has a catch-all arm for non-exhaustiveness, modelled by
`OtherAssoc`. -/
inductive AuthorAssociation where
  | Collaborator
  | Contributor
  | FirstTimer
  | FirstTimeContributor
  | Mannequin
  | Member
  | NoneAssoc
  | Owner
  | OtherAssoc (s : String)
deriving DecidableEq

/-- The privilege-level `match` at the top of the issue-comment branch of
`webhook_handler` (src/main.rs lines 174-185). -/
def privilegeLevel : AuthorAssociation → Nat
  | .Collaborator => 1
  | .Contributor => 0
  | .FirstTimer => 0
  | .FirstTimeContributor => 0
  | .Mannequin => 0
  | .Member => 2
  | .NoneAssoc => 0
  | .Owner => 2
  | .OtherAssoc _ => 0

/-- One Tracker Client invocation, as enumerated in the spec and emitted
by `webhook_handler`. -/
inductive TrackerCall where
  | addAssignees (issue : Nat) (users : List String)
  | removeAssignees (issue : Nat) (users : List String)
  | addLabels (issue : Nat) (labels : List String)
  | removeLabel (issue : Nat) (label : String)
  | listLabelsForRepo
  | listLabelsForIssue (issue : Nat)
  | replaceAllLabels (issue : Nat) (labels : List String)
  | listChangedFiles (pr : Nat)
deriving DecidableEq

/-- Read results the handler obtains from the tracker: the repository's
label vocabulary (`list_labels_for_repo`) and the issue's current labels
(`list_labels_for_issue`), in the order the tracker returns them. -/
structure TrackerState where
  repoLabels : List String
  issueLabels : List String
deriving DecidableEq

/-- The fields of the issue-comment payload that the handler reads. -/
structure CommentEvent where
  authorAssoc : AuthorAssociation
  commentUserId : Nat
  commentUserLogin : String
  issueUserId : Nat
  issueNumber : Nat
  body : Option String
deriving DecidableEq

/-- The comment-line trigger token of the command parser. -/
def trigger : String := "!ddnetbot"

/-- The per-token body of the `label` command loop (src/main.rs lines
254-264): a `+` token inserts its name into the working set when the name
is in the repository vocabulary, a `-` token removes its name when in the
vocabulary, any other token is ignored. -/
def applyLabelToken (vocab : List String) (cur : List String) (tok : String) : List String :=
  match stripPref "+" tok with
  | some addLabel => if addLabel ∈ vocab then hsInsert cur addLabel else cur
  | none =>
    match stripPref "-" tok with
    | some removeLabel => if removeLabel ∈ vocab then hsRemove cur removeLabel else cur
    | none => cur

/-- The label list the handler submits to `replace_all_labels` for a
`label` command: the issue's current labels collected into a hash set,
then each token applied in order (src/main.rs lines 233-272). -/
def labelCommand (repoLabels issueLabels : List String) (toks : List String) : List String :=
  toks.foldl (applyLabelToken repoLabels) (issueLabels.foldl hsInsert [])

/-- One comment line of the command loop in `webhook_handler`
(src/main.rs lines 196-275): strip the trigger, trim, then test the
command keywords in source order, each arm emitting its tracker calls. -/
def handleLine (st : TrackerState) (ev : CommentEvent) (line : String) : List TrackerCall :=
  match stripPref trigger line with
  | none => []
  | some rest0 =>
    let rest := trimStart rest0
    match stripPref "claim" rest with
    | some _ => [.addAssignees ev.issueNumber [ev.commentUserLogin]]
    | none =>
      match stripPref "unclaim" rest with
      | some _ => [.removeAssignees ev.issueNumber [ev.commentUserLogin]]
      | none =>
        match stripPref "ready" rest with
        | some _ =>
            [.addLabels ev.issueNumber ["waiting-for-reviews"],
             .removeLabel ev.issueNumber "waiting-on-author"]
        | none =>
          match stripPref "author" rest with
          | some _ =>
              [.addLabels ev.issueNumber ["waiting-on-author"],
               .removeLabel ev.issueNumber "waiting-for-reviews"]
          | none =>
            match stripPref "label" rest with
            | some cmdLabels =>
                [.listLabelsForRepo, .listLabelsForIssue ev.issueNumber,
                 .replaceAllLabels ev.issueNumber
                   (labelCommand st.repoLabels st.issueLabels (splitWs cmdLabels))]
            | none => []

/-- The issue-comment branch of `webhook_handler` (src/main.rs lines
170-280): classify the author's privilege, return no calls when an
unprivileged non-author commented, otherwise run the command loop over
the body's lines. -/
def handleComment (st : TrackerState) (ev : CommentEvent) : List TrackerCall :=
  if privilegeLevel ev.authorAssoc = 0 ∧ ev.commentUserId ≠ ev.issueUserId then []
  else
    match ev.body with
    | none => []
    | some body => (rlines body).foldl (fun acc line => acc ++ handleLine st ev line) []

/-- The label pushes for one changed file (src/main.rs lines 115-137):
one push per matching substring trigger, in source order. -/
def fileLabels (filename : String) : List String :=
  (if rcontains filename "client" then ["client"] else []) ++
  (if rcontains filename "server" then ["server"] else []) ++
  (if rcontains filename "demo" then ["demo"] else []) ++
  (if rcontains filename "editor" then ["editor"] else []) ++
  (if rcontains filename "engine" then ["engine"] else []) ++
  (if rcontains filename "map" then ["maps"] else []) ++
  (if rcontains filename "network" then ["network"] else [])

/-- The accumulated `add_labels` vector over all changed files of a pull
request (src/main.rs lines 113-137). -/
def prFileLabels (files : List String) : List String :=
  files.foldl (fun acc f => acc ++ fileLabels f) []

/-- The pull-request actions the handler's `match` distinguishes;
`OtherAction` stands for the catch-all `_ => {}` arm. -/
inductive PullRequestAction where
  | Edited
  | Opened
  | Reopened
  | OtherAction
deriving DecidableEq

/-- Outcome of the pull-request branch: either the emitted tracker calls,
or a panic (`todo!()` aborts the handler). -/
inductive PROutcome where
  | panicked
  | calls (l : List TrackerCall)
deriving DecidableEq

/-- The pull-request branch of `webhook_handler` (src/main.rs lines
99-146): `Edited` hits `todo!()` (a panic); `Opened`/`Reopened` list the
changed files and add the derived labels; other actions do nothing. -/
def handlePullRequest (changedFiles : List String) (prNumber : Nat) :
    PullRequestAction → PROutcome
  | .Edited => .panicked
  | .Opened => .calls [.listChangedFiles prNumber,
                       .addLabels prNumber (prFileLabels changedFiles)]
  | .Reopened => .calls [.listChangedFiles prNumber,
                         .addLabels prNumber (prFileLabels changedFiles)]
  | .OtherAction => .calls []

/-- Modelled from the spec: the `bug` toggle command handler is not
present in the `src/` snapshot of this repository (the snapshot's command
chain tests only `claim`, `unclaim`, `ready`, `author`, `label`), while
the spec's command vocabulary includes `bug`.  Per the spec: read the
current labels for the issue; if the fixed label `"bug"` is present, emit
a remove; otherwise emit an add.  `currentLabels` is the result of the
read; the returned list is the mutation calls emitted. -/
def bugToggle (currentLabels : List String) (issueNumber : Nat) : List TrackerCall :=
  if "bug" ∈ currentLabels then [.removeLabel issueNumber "bug"]
  else [.addLabels issueNumber ["bug"]]

/-- The effect of one tracker mutation on an issue's label set (add is
insert-each, remove is delete, replace overwrites; reads and assignee
calls leave labels unchanged). -/
def applyCall (labels : List String) : TrackerCall → List String
  | .addLabels _ ls => ls.foldl hsInsert labels
  | .removeLabel _ l => hsRemove labels l
  | .replaceAllLabels _ ls => ls
  | _ => labels

/-- Sequential effect of a call list on an issue's label set. -/
def applyCalls (labels : List String) (calls : List TrackerCall) : List String :=
  calls.foldl applyCall labels

end DDBot

namespace DDBot

theorem mem_hsInsert (s : List String) (x y : String) :
    x ∈ hsInsert s y ↔ x ∈ s ∨ x = y := by
  unfold hsInsert
  split
  · constructor
    · exact Or.inl
    · rintro (h | rfl)
      · exact h
      · assumption
  · simp

theorem mem_hsRemove (s : List String) (x y : String) :
    x ∈ hsRemove s y ↔ x ∈ s ∧ x ≠ y := by
  simp [hsRemove, List.mem_filter]

theorem hsInsert_of_mem (s : List String) (y : String) (h : y ∈ s) :
    hsInsert s y = s :=
  if_pos h

theorem hsRemove_hsRemove (s : List String) (y : String) :
    hsRemove (hsRemove s y) y = hsRemove s y := by
  simp [hsRemove, List.filter_filter]

theorem nodup_hsInsert (s : List String) (y : String) (h : s.Nodup) :
    (hsInsert s y).Nodup := by
  unfold hsInsert
  split
  · exact h
  · next hy => simp [List.nodup_append, h, hy]

theorem nodup_hsRemove (s : List String) (y : String) (h : s.Nodup) :
    (hsRemove s y).Nodup :=
  h.filter _

theorem mem_hsFold (l : List String) :
    ∀ (s : List String) (x : String), x ∈ l.foldl hsInsert s ↔ x ∈ s ∨ x ∈ l := by
  induction l with
  | nil => simp
  | cons a l ih =>
    intro s x
    simp only [List.foldl_cons, ih, mem_hsInsert, List.mem_cons]
    tauto

theorem nodup_hsFold (l : List String) :
    ∀ s : List String, s.Nodup → (l.foldl hsInsert s).Nodup := by
  induction l with
  | nil => exact fun s h => h
  | cons a l ih => exact fun s h => ih _ (nodup_hsInsert s a h)

/-- The net effect of a `label`-command token: an in-vocabulary `+` token
adds its name, an in-vocabulary `-` token removes its name, anything else
is skipped. -/
inductive TokEffect where
  | addE (n : String)
  | removeE (n : String)
  | skipE
deriving DecidableEq

/-- Classify one `label`-command token (same branch structure as
`applyLabelToken`). -/
def tokEffect (vocab : List String) (tok : String) : TokEffect :=
  match stripPref "+" tok with
  | some n => if n ∈ vocab then .addE n else .skipE
  | none =>
    match stripPref "-" tok with
    | some n => if n ∈ vocab then .removeE n else .skipE
    | none => .skipE

theorem applyLabelToken_eq (vocab cur : List String) (tok : String) :
    applyLabelToken vocab cur tok =
      match tokEffect vocab tok with
      | .addE n => hsInsert cur n
      | .removeE n => hsRemove cur n
      | .skipE => cur := by
  unfold applyLabelToken tokEffect
  cases hp : stripPref "+" tok with
  | some n => by_cases hv : n ∈ vocab <;> simp [hv]
  | none =>
    cases hm : stripPref "-" tok with
    | some n => by_cases hv : n ∈ vocab <;> simp [hv]
    | none => rfl

/-- The add-name set of a `label` command, as the spec defines it: names
of `+`-sigil tokens, filtered to the repository vocabulary. -/
def tokAdds (vocab toks : List String) : List String :=
  toks.filterMap fun t =>
    match tokEffect vocab t with
    | .addE n => some n
    | _ => none

/-- The remove-name set of a `label` command, as the spec defines it:
names of `-`-sigil tokens, filtered to the repository vocabulary. -/
def tokRemoves (vocab toks : List String) : List String :=
  toks.filterMap fun t =>
    match tokEffect vocab t with
    | .removeE n => some n
    | _ => none

theorem mem_tokAdds_cons (vocab : List String) (t : String) (toks : List String) (x : String) :
    x ∈ tokAdds vocab (t :: toks) ↔
      tokEffect vocab t = .addE x ∨ x ∈ tokAdds vocab toks := by
  simp only [tokAdds, List.filterMap_cons]
  cases h : tokEffect vocab t <;> simp [h, eq_comm]

theorem mem_tokRemoves_cons (vocab : List String) (t : String) (toks : List String) (x : String) :
    x ∈ tokRemoves vocab (t :: toks) ↔
      tokEffect vocab t = .removeE x ∨ x ∈ tokRemoves vocab toks := by
  simp only [tokRemoves, List.filterMap_cons]
  cases h : tokEffect vocab t <;> simp [h, eq_comm]

theorem tokEffect_addE_vocab (vocab : List String) (t n : String)
    (h : tokEffect vocab t = .addE n) : n ∈ vocab := by
  unfold tokEffect at h
  cases hp : stripPref "+" t with
  | some m =>
    rw [hp] at h
    by_cases hm : m ∈ vocab
    · simp [hm] at h
      exact h ▸ hm
    · simp [hm] at h
  | none =>
    rw [hp] at h
    cases hq : stripPref "-" t with
    | some m =>
      rw [hq] at h
      by_cases hm : m ∈ vocab
      · simp [hm] at h
      · simp [hm] at h
    | none =>
      rw [hq] at h
      simp at h

theorem mem_tokAdds_vocab (vocab toks : List String) (x : String)
    (h : x ∈ tokAdds vocab toks) : x ∈ vocab := by
  induction toks with
  | nil => cases h
  | cons t toks ih =>
    rcases (mem_tokAdds_cons vocab t toks x).mp h with h1 | h1
    · exact tokEffect_addE_vocab vocab t x h1
    · exact ih h1

end DDBot

namespace DDBot

theorem mem_labelFold_of_not_add (vocab : List String) (toks : List String) (x : String)
    (h : x ∉ tokAdds vocab toks) :
    ∀ s : List String, x ∈ toks.foldl (applyLabelToken vocab) s ↔
      x ∈ s ∧ x ∉ tokRemoves vocab toks := by
  induction toks with
  | nil =>
    intro s
    simp [tokRemoves]
  | cons t toks ih =>
    intro s
    have h1 : tokEffect vocab t ≠ .addE x :=
      fun hc => h ((mem_tokAdds_cons vocab t toks x).mpr (Or.inl hc))
    have h2 : x ∉ tokAdds vocab toks :=
      fun hc => h ((mem_tokAdds_cons vocab t toks x).mpr (Or.inr hc))
    rw [List.foldl_cons, ih h2, applyLabelToken_eq]
    cases he : tokEffect vocab t with
    | addE n =>
      have hxn : x ≠ n := fun hc => h1 (hc ▸ he)
      simp only [mem_hsInsert, mem_tokRemoves_cons, he]
      simp [hxn]
    | removeE n =>
      simp only [mem_hsRemove, mem_tokRemoves_cons, he]
      simp only [TokEffect.removeE.injEq]
      constructor
      · rintro ⟨⟨hs, hne⟩, hr⟩
        exact ⟨hs, by rintro (rfl | hc) <;> simp_all⟩
      · rintro ⟨hs, hr⟩
        refine ⟨⟨hs, fun hc => hr (Or.inl hc.symm)⟩, fun hc => hr (Or.inr hc)⟩
    | skipE =>
      simp [mem_tokRemoves_cons, he]

theorem mem_labelFold_of_not_remove (vocab : List String) (toks : List String) (x : String)
    (h : x ∉ tokRemoves vocab toks) :
    ∀ s : List String, x ∈ toks.foldl (applyLabelToken vocab) s ↔
      x ∈ s ∨ x ∈ tokAdds vocab toks := by
  induction toks with
  | nil =>
    intro s
    simp [tokAdds]
  | cons t toks ih =>
    intro s
    have h1 : tokEffect vocab t ≠ .removeE x :=
      fun hc => h ((mem_tokRemoves_cons vocab t toks x).mpr (Or.inl hc))
    have h2 : x ∉ tokRemoves vocab toks :=
      fun hc => h ((mem_tokRemoves_cons vocab t toks x).mpr (Or.inr hc))
    rw [List.foldl_cons, ih h2, applyLabelToken_eq]
    cases he : tokEffect vocab t with
    | addE n =>
      simp only [mem_hsInsert, mem_tokAdds_cons, he]
      simp only [TokEffect.addE.injEq]
      constructor
      · rintro ((hs | hc) | ha)
        · exact Or.inl hs
        · exact Or.inr (Or.inl hc.symm)
        · exact Or.inr (Or.inr ha)
      · rintro (hs | (hc | ha))
        · exact Or.inl (Or.inl hs)
        · exact Or.inl (Or.inr hc.symm)
        · exact Or.inr ha
    | removeE n =>
      have hxn : x ≠ n := fun hc => h1 (hc ▸ he)
      simp only [mem_hsRemove, mem_tokAdds_cons, he]
      simp [hxn]
    | skipE =>
      simp [mem_tokAdds_cons, he]

theorem nodup_applyLabelToken (vocab cur : List String) (tok : String)
    (h : cur.Nodup) : (applyLabelToken vocab cur tok).Nodup := by
  rw [applyLabelToken_eq]
  cases tokEffect vocab tok with
  | addE n => exact nodup_hsInsert cur n h
  | removeE n => exact nodup_hsRemove cur n h
  | skipE => exact h

theorem nodup_labelFold (vocab : List String) (toks : List String) :
    ∀ s : List String, s.Nodup → (toks.foldl (applyLabelToken vocab) s).Nodup := by
  induction toks with
  | nil => exact fun s h => h
  | cons t toks ih => exact fun s h => ih _ (nodup_applyLabelToken vocab s t h)

end DDBot

namespace DDBot

theorem isPrefB_cons_ne (a : Char) (as : List Char) (c : Char) (r : List Char)
    (h : a ≠ c) : isPrefB (a :: as) (c :: r) = false := by
  simp [isPrefB, h]

theorem isPrefB_app (p r : List Char) : isPrefB p (p ++ r) = true := by
  induction p with
  | nil => rfl
  | cons a as ih => simp [isPrefB, ih]

theorem stripPref_none_of_ne (p s : String) (hp : isPrefB p.data s.data = false) :
    stripPref p s = none := by
  unfold stripPref
  simp only [hp]

theorem stripPref_app (p : String) (r : List Char) :
    stripPref p (String.mk (p.data ++ r)) = some (String.mk r) := by
  unfold stripPref
  rw [show (String.mk (p.data ++ r)).data = p.data ++ r from rfl]
  rw [isPrefB_app]
  rw [List.drop_left]

theorem trimStartL_app (ws l : List Char) (h : ∀ d ∈ ws, isWsChar d = true) :
    trimStartL (ws ++ l) = trimStartL l := by
  induction ws with
  | nil => rfl
  | cons d ws ih =>
    have hd : isWsChar d = true := h d (List.mem_cons_self d ws)
    simp only [List.cons_append, trimStartL, hd, if_true]
    exact ih (fun e he => h e (List.mem_cons_of_mem d he))

theorem handleLine_ws_head (st : TrackerState) (ev : CommentEvent) (c : Char)
    (r : List Char) (hc : isWsChar c = true) :
    handleLine st ev (String.mk (c :: r)) = [] := by
  have hne : '!' ≠ c := by
    rcases of_decide_eq_true hc with rfl | rfl | rfl | rfl | rfl <;> decide
  have hp : isPrefB trigger.data (c :: r) = false := by
    rw [show trigger.data = '!' :: "ddnetbot".data from rfl]
    exact isPrefB_cons_ne '!' _ c r hne
  have hs : stripPref trigger (String.mk (c :: r)) = none :=
    stripPref_none_of_ne trigger (String.mk (c :: r)) hp
  unfold handleLine
  rw [hs]

theorem handleLine_trigger_ws_claim (st : TrackerState) (ev : CommentEvent)
    (ws : List Char) (hws : ∀ d ∈ ws, isWsChar d = true) :
    handleLine st ev (String.mk (trigger.data ++ (ws ++ "claim".data))) =
      [.addAssignees ev.issueNumber [ev.commentUserLogin]] := by
  have ht : trimStart (String.mk (ws ++ "claim".data)) = "claim" := by
    unfold trimStart
    rw [show (String.mk (ws ++ "claim".data)).data = ws ++ "claim".data from rfl]
    rw [trimStartL_app ws _ hws]
    rfl
  unfold handleLine
  simp only [stripPref_app, ht]
  rfl

theorem applyLabelToken_plus (vocab cur : List String) (a : String) (ha : a ∈ vocab) :
    applyLabelToken vocab cur (String.mk ('+' :: a.data)) = hsInsert cur a := by
  show (if a ∈ vocab then hsInsert cur a else cur) = hsInsert cur a
  exact if_pos ha

theorem applyLabelToken_minus (vocab cur : List String) (a : String) (ha : a ∈ vocab) :
    applyLabelToken vocab cur (String.mk ('-' :: a.data)) = hsRemove cur a := by
  show (if a ∈ vocab then hsRemove cur a else cur) = hsRemove cur a
  exact if_pos ha

end DDBot

namespace DDBot

/-- C1: for a `bug` command from an authorized actor, the handler reads
the issue's current labels and, if the label "bug" is present, emits
exactly one removeLabel("bug") call; if it is absent, emits exactly one
addLabels(["bug"]) call.  (The `bug` toggle is modelled from the spec;
see `bugToggle`.) -/
theorem bugToggle_toggles (cur : List String) (n : Nat) :
    ("bug" ∈ cur → bugToggle cur n = [.removeLabel n "bug"]) ∧
    ("bug" ∉ cur → bugToggle cur n = [.addLabels n ["bug"]]) := by
  constructor
  · intro h
    unfold bugToggle
    rw [if_pos h]
  · intro h
    unfold bugToggle
    rw [if_neg h]

/-- Witness for C1 at concrete label sets. -/
theorem bugToggle_toggles_witness :
    ("bug" ∈ ["bug", "x"] ∧ bugToggle ["bug", "x"] 5 = [.removeLabel 5 "bug"]) ∧
    ("bug" ∉ ["x"] ∧ bugToggle ["x"] 5 = [.addLabels 5 ["bug"]]) :=
  ⟨⟨by decide, (bugToggle_toggles ["bug", "x"] 5).1 (by decide)⟩,
   ⟨by decide, (bugToggle_toggles ["x"] 5).2 (by decide)⟩⟩

/-- C2, counterexample: when the `-` token precedes the `+` token for the
same in-vocabulary name, the name IS in the submitted label set, so the
claim "removal takes precedence regardless of the order of the two
tokens" is false on the code (tokens are applied in order on the working
set, not adds-then-removes). -/
theorem labelCommand_order_cex :
    "a" ∈ labelCommand ["a"] [] ["-a", "+a"] := by decide

/-- C2, amended: when the `+` token precedes the `-` token for a name in
the repository vocabulary, the name is absent from the label set
submitted to replaceAllLabels (the last sigil occurrence wins, because
tokens are applied left to right). -/
theorem labelCommand_minus_last (vocab cur : List String) (a : String)
    (ha : a ∈ vocab) :
    a ∉ labelCommand vocab cur [String.mk ('+' :: a.data), String.mk ('-' :: a.data)] := by
  unfold labelCommand
  rw [List.foldl_cons, List.foldl_cons, List.foldl_nil,
      applyLabelToken_plus vocab _ a ha, applyLabelToken_minus vocab _ a ha]
  simp [mem_hsRemove]

/-- Witness for C2's amended statement at a concrete command. -/
theorem labelCommand_minus_last_witness :
    "a" ∈ ["a", "b"] ∧ "a" ∉ labelCommand ["a", "b"] ["b"] ["+a", "-a"] :=
  ⟨by decide, labelCommand_minus_last ["a", "b"] ["b"] "a" (by decide)⟩

/-- C3: a comment whose author has privilege tier 0 and whose author id
differs from the issue author's id produces zero tracker calls — the
handler returns before parsing the body. -/
theorem handleComment_unprivileged (st : TrackerState) (ev : CommentEvent)
    (h1 : privilegeLevel ev.authorAssoc = 0)
    (h2 : ev.commentUserId ≠ ev.issueUserId) :
    handleComment st ev = [] := by
  unfold handleComment
  rw [if_pos ⟨h1, h2⟩]

/-- Witness for C3: a Contributor (tier 0) with id 1 commenting on issue
author id 2 yields no calls even with a command line in the body. -/
theorem handleComment_unprivileged_witness :
    privilegeLevel .Contributor = 0 ∧ (1 : Nat) ≠ 2 ∧
    handleComment ⟨["bug"], []⟩ ⟨.Contributor, 1, "mallory", 2, 3, some "!ddnetbot claim"⟩ = [] :=
  ⟨rfl, by decide,
   handleComment_unprivileged ⟨["bug"], []⟩ ⟨.Contributor, 1, "mallory", 2, 3, some "!ddnetbot claim"⟩
     rfl (by decide)⟩

/-- C4 (code bug): a pull-request event with action Edited does not
complete as a logged no-op — the code hits `todo!()`, which panics the
handler. -/
theorem pullRequestEdited_panics :
    handlePullRequest ["src/a.rs"] 3 .Edited = .panicked := rfl

/-- C5, counterexample: the submitted set does not always equal
(current ∪ adds) \ removes with vocabulary filtering: for the command
tokens `-b +b` on vocabulary just "b" and no current labels, the code
submits a set containing "b" while the formula excludes it. -/
theorem labelCommand_formula_cex :
    "b" ∈ labelCommand ["b"] [] ["-b", "+b"] ∧
    ¬ (("b" ∈ ([] : List String) ∨ "b" ∈ tokAdds ["b"] ["-b", "+b"]) ∧
        "b" ∉ tokRemoves ["b"] ["-b", "+b"]) := by decide

/-- C5, amended: when no name occurs both as an in-vocabulary `+` token
and as an in-vocabulary `-` token, the label set submitted to
replaceAllLabels equals (current ∪ adds) \ removes, where adds and
removes are the sigil-token names filtered to the repository vocabulary;
moreover a name outside the vocabulary that is not already on the issue
never appears in the submitted set. -/
theorem labelCommand_formula (vocab cur toks : List String)
    (hdisj : ∀ x ∈ tokAdds vocab toks, x ∉ tokRemoves vocab toks) :
    (∀ x, x ∈ labelCommand vocab cur toks ↔
        (x ∈ cur ∨ x ∈ tokAdds vocab toks) ∧ x ∉ tokRemoves vocab toks) ∧
    (∀ x, x ∉ vocab → x ∉ cur → x ∉ labelCommand vocab cur toks) := by
  constructor
  · intro x
    by_cases hr : x ∈ tokRemoves vocab toks
    · have hna : x ∉ tokAdds vocab toks := fun hc => hdisj x hc hr
      unfold labelCommand
      rw [mem_labelFold_of_not_add vocab toks x hna]
      simp [hr]
    · unfold labelCommand
      rw [mem_labelFold_of_not_remove vocab toks x hr, mem_hsFold]
      simp [hr]
  · intro x hxv hxc
    have hna : x ∉ tokAdds vocab toks :=
      fun hc => hxv (mem_tokAdds_vocab vocab toks x hc)
    unfold labelCommand
    rw [mem_labelFold_of_not_add vocab toks x hna, mem_hsFold]
    simp [hxc]

/-- Witness for C5's amended statement at a concrete command. -/
theorem labelCommand_formula_witness :
    (∀ x ∈ tokAdds ["bug", "tri"] ["+bug", "-tri"],
        x ∉ tokRemoves ["bug", "tri"] ["+bug", "-tri"]) ∧
    ("bug" ∈ labelCommand ["bug", "tri"] ["tri"] ["+bug", "-tri"] ↔
      (("bug" ∈ ["tri"] ∨ "bug" ∈ tokAdds ["bug", "tri"] ["+bug", "-tri"]) ∧
        "bug" ∉ tokRemoves ["bug", "tri"] ["+bug", "-tri"])) ∧
    ("zzz" ∉ ["bug", "tri"] → "zzz" ∉ ["tri"] →
      "zzz" ∉ labelCommand ["bug", "tri"] ["tri"] ["+bug", "-tri"]) :=
  ⟨by decide,
   (labelCommand_formula ["bug", "tri"] ["tri"] ["+bug", "-tri"] (by decide)).1 "bug",
   (labelCommand_formula ["bug", "tri"] ["tri"] ["+bug", "-tri"] (by decide)).2 "zzz"⟩

/-- C6, counterexample: the list submitted to replaceAllLabels is not
sorted lexicographically: starting from current labels \x7b"b"\x7d, the
command `+a` yields the list ["b", "a"]. -/
theorem labelCommand_unsorted_cex :
    labelCommand ["a"] ["b"] ["+a"] = ["b", "a"] ∧
    ¬ List.Sorted (fun x y => lexLe x y = true) (labelCommand ["a"] ["b"] ["+a"]) := by
  constructor
  · decide
  · decide

/-- C6, amended: the code performs no sort; the submitted list is the
hash set's iteration order (modelled as insertion order) and is merely
duplicate-free: each desired label appears exactly once. -/
theorem labelCommand_nodup (vocab cur toks : List String) :
    (labelCommand vocab cur toks).Nodup :=
  nodup_labelFold vocab toks _ (nodup_hsFold cur [] List.nodup_nil)

/-- C7, counterexample: a line of leading whitespace followed by the
trigger and a command yields no command, while the same line without the
whitespace yields the command — the trigger test happens on the raw line,
before any trimming. -/
theorem handleLine_leading_ws_cex :
    handleLine ⟨[], []⟩ ⟨.Owner, 1, "alice", 1, 7, none⟩ " !ddnetbot claim" = [] ∧
    handleLine ⟨[], []⟩ ⟨.Owner, 1, "alice", 1, 7, none⟩ "!ddnetbot claim" =
      [.addAssignees 7 ["alice"]] := by
  constructor
  · rfl
  · rfl

/-- C7, amended: the parser tests the trigger prefix against the raw
line, without trimming leading whitespace first: any line starting with a
whitespace character yields no command; leading whitespace is trimmed
only after the trigger has been stripped, so whitespace between the
trigger and the keyword is accepted. -/
theorem handleLine_no_pre_trim (st : TrackerState) (ev : CommentEvent)
    (c : Char) (r ws : List Char)
    (hc : isWsChar c = true) (hws : ∀ d ∈ ws, isWsChar d = true) :
    handleLine st ev (String.mk (c :: r)) = [] ∧
    handleLine st ev (String.mk (trigger.data ++ (ws ++ "claim".data))) =
      [.addAssignees ev.issueNumber [ev.commentUserLogin]] :=
  ⟨handleLine_ws_head st ev c r hc, handleLine_trigger_ws_claim st ev ws hws⟩

/-- Witness for C7's amended statement at a concrete line. -/
theorem handleLine_no_pre_trim_witness :
    isWsChar ' ' = true ∧
    (handleLine ⟨[], []⟩ ⟨.Owner, 1, "alice", 1, 7, none⟩
        (String.mk (' ' :: "!ddnetbot claim".data)) = [] ∧
      handleLine ⟨[], []⟩ ⟨.Owner, 1, "alice", 1, 7, none⟩
        (String.mk (trigger.data ++ ([' '] ++ "claim".data))) =
        [.addAssignees 7 ["alice"]]) :=
  ⟨by decide,
   handleLine_no_pre_trim ⟨[], []⟩ ⟨.Owner, 1, "alice", 1, 7, none⟩
     ' ' "!ddnetbot claim".data [' '] (by decide) (by decide)⟩

/-- C8, counterexample: matched labels are accumulated in a plain vector,
not a set — two changed files both matching the "client" trigger push the
label twice, so duplicates are not collapsed before the addLabels call. -/
theorem prFileLabels_dup_cex :
    prFileLabels ["a/client/x.c", "b/client/y.c"] = ["client", "client"] ∧
    ¬ (["client", "client"] : List String).Nodup := by
  constructor
  · decide
  · decide

/-- C8, amended: labels derived from changed file paths by unanchored
case-sensitive substring matching are accumulated as a list that may
contain duplicates (one push per matching file/trigger pair); for the
changed files of the spec's example the output happens to be exactly
["client"]. -/
theorem prFileLabels_example :
    prFileLabels ["src/client/render.cpp", "docs/readme.md"] = ["client"] := by decide

/-- C9: applying the label-set effect of the `ready` (or `author`)
command twice in sequence yields the same final label set as applying it
once. -/
theorem ready_author_idem (st : TrackerState) (ev : CommentEvent) (S : List String) :
    applyCalls (applyCalls S (handleLine st ev "!ddnetbot ready"))
        (handleLine st ev "!ddnetbot ready") =
      applyCalls S (handleLine st ev "!ddnetbot ready") ∧
    applyCalls (applyCalls S (handleLine st ev "!ddnetbot author"))
        (handleLine st ev "!ddnetbot author") =
      applyCalls S (handleLine st ev "!ddnetbot author") := by
  constructor
  · show hsRemove (hsInsert (hsRemove (hsInsert S "waiting-for-reviews") "waiting-on-author")
        "waiting-for-reviews") "waiting-on-author" =
      hsRemove (hsInsert S "waiting-for-reviews") "waiting-on-author"
    rw [hsInsert_of_mem]
    · exact hsRemove_hsRemove _ _
    · rw [mem_hsRemove, mem_hsInsert]
      exact ⟨Or.inr rfl, by decide⟩
  · show hsRemove (hsInsert (hsRemove (hsInsert S "waiting-on-author") "waiting-for-reviews")
        "waiting-on-author") "waiting-for-reviews" =
      hsRemove (hsInsert S "waiting-on-author") "waiting-for-reviews"
    rw [hsInsert_of_mem]
    · exact hsRemove_hsRemove _ _
    · rw [mem_hsRemove, mem_hsInsert]
      exact ⟨Or.inr rfl, by decide⟩

/-- C10: command keywords are recognized by bare prefix matching on the
post-trigger remainder — any trailing characters after the keyword are
accepted and no whitespace is required between the trigger and the
keyword. -/
theorem handleLine_bare_keyword (st : TrackerState) (ev : CommentEvent) (r : List Char) :
    handleLine st ev (String.mk (trigger.data ++ "claim".data ++ r)) =
      [.addAssignees ev.issueNumber [ev.commentUserLogin]] ∧
    handleLine st ev (String.mk (trigger.data ++ "unclaim".data ++ r)) =
      [.removeAssignees ev.issueNumber [ev.commentUserLogin]] ∧
    handleLine st ev (String.mk (trigger.data ++ "ready".data ++ r)) =
      [.addLabels ev.issueNumber ["waiting-for-reviews"],
       .removeLabel ev.issueNumber "waiting-on-author"] ∧
    handleLine st ev (String.mk (trigger.data ++ "author".data ++ r)) =
      [.addLabels ev.issueNumber ["waiting-on-author"],
       .removeLabel ev.issueNumber "waiting-for-reviews"] ∧
    handleLine st ev (String.mk (trigger.data ++ "label".data ++ r)) =
      [.listLabelsForRepo, .listLabelsForIssue ev.issueNumber,
       .replaceAllLabels ev.issueNumber
         (labelCommand st.repoLabels st.issueLabels (splitWs (String.mk r)))] :=
  ⟨rfl, rfl, rfl, rfl, rfl⟩

end DDBot
